import Mathlib

/-!
Verification development for the upload orchestration and scheduling engine
of `src/main.py`.  Each component that the specification makes claims about
is shallowly embedded as executable Lean definitions translated from the
Python source, and the claimed properties are settled as theorems about
those definitions.
-/

namespace Noooo

/- ===================================================================
   BulkScheduleComputer: the bounded-window distribution algorithm.
   Embedded from `schedule_preset_cb`, `src/main.py` lines 2176-2207.
   Times are rational numbers of minutes; a calendar day is 1440 minutes.
   =================================================================== -/

/-- `t.replace(hour=0, minute=0, second=0, microsecond=0)` expressed on
rational minutes: the start (midnight) of the calendar day containing `t`. -/
def dayStart (t : ℚ) : ℚ := (⌊t / 1440⌋ : ℚ) * 1440

/-- `interval_minutes = total_minutes / media_count` from line 2192, where
`total_minutes` is the length of today's window (`end - start`). -/
def windowInterval (s e : ℕ) (now : ℚ) (n : ℕ) : ℚ :=
  ((dayStart now + e) - (dayStart now + s)) / n

/-- The `for i in range(media_count)` loop of lines 2198-2207: at each step,
if the cursor has passed today's window end it wraps to the *next* day's
window start (`current + timedelta(days=1)` then `.replace(hour=start_hour,
minute=start_minute, ...)`), the (possibly wrapped) cursor is emitted as the
next `run_at`, and the cursor advances by the fixed interval. -/
def windowLoop (s : ℕ) (endToday interval : ℚ) : ℕ → ℚ → List ℚ
  | 0, _ => []
  | n + 1, cur =>
      let cur' := if endToday < cur then dayStart (cur + 1440) + s else cur
      cur' :: windowLoop s endToday interval n (cur' + interval)

/-- The bounded-window branch of `schedule_preset_cb` (lines 2184-2207).
`s`/`e` are the window start/end as minutes-of-day parsed from the policy,
`now` is `get_current_ist_time()` in minutes.  Returns `none` exactly when
the code rejects the window (`total_minutes <= 0`, line 2189). -/
def computeWindowSchedule (s e nItems : ℕ) (now : ℚ) : Option (List ℚ) :=
  let startToday := dayStart now + s
  let endToday := dayStart now + e
  let totalMinutes := endToday - startToday
  if totalMinutes ≤ 0 then none
  else
    let interval := windowInterval s e now nItems
    let cur := if startToday < now then now else startToday
    some (windowLoop s endToday interval nItems cur)

/-- A timestamp lies inside the configured window of *some* calendar day. -/
def inSomeWindow (s e : ℕ) (t : ℚ) : Prop :=
  ∃ d : ℤ, (d * 1440 + s : ℚ) ≤ t ∧ t ≤ (d * 1440 + e : ℚ)

lemma dayStart_le (t : ℚ) : dayStart t ≤ t := by
  have h : (⌊t / 1440⌋ : ℚ) ≤ t / 1440 := Int.floor_le _
  have h1440 : (0 : ℚ) < 1440 := by norm_num
  calc dayStart t = (⌊t / 1440⌋ : ℚ) * 1440 := rfl
    _ ≤ (t / 1440) * 1440 := by nlinarith
    _ = t := by field_simp

lemma lt_dayStart_add (t : ℚ) : t < dayStart t + 1440 := by
  have h : t / 1440 < (⌊t / 1440⌋ : ℚ) + 1 := Int.lt_floor_add_one _
  have h1440 : (0 : ℚ) < 1440 := by norm_num
  have := mul_lt_mul_of_pos_right h h1440
  have ht : t / 1440 * 1440 = t := by field_simp
  unfold dayStart
  nlinarith [this]

/-- Wrapping never moves the cursor backwards. -/
lemma le_wrap (s : ℕ) (cur : ℚ) : cur ≤ dayStart (cur + 1440) + s := by
  have h1 : cur + 1440 < dayStart (cur + 1440) + 1440 := lt_dayStart_add (cur + 1440)
  have h2 : (0 : ℚ) ≤ s := by positivity
  linarith

lemma windowLoop_length (s : ℕ) (endToday interval : ℚ) :
    ∀ n cur, (windowLoop s endToday interval n cur).length = n := by
  intro n
  induction n with
  | zero => intro cur; rfl
  | succ k ih => intro cur; simp [windowLoop, ih]

/-- Every emitted timestamp is at least the cursor the loop started from. -/
lemma windowLoop_lower_bound (s : ℕ) (endToday interval : ℚ)
    (hint : 0 ≤ interval) :
    ∀ n cur, ∀ x ∈ windowLoop s endToday interval n cur, cur ≤ x := by
  intro n
  induction n with
  | zero => intro cur x hx; simp [windowLoop] at hx
  | succ k ih =>
      intro cur x hx
      simp only [windowLoop, List.mem_cons] at hx
      have hcur' : cur ≤ if endToday < cur then dayStart (cur + 1440) + s else cur := by
        split
        · exact le_wrap s cur
        · exact le_refl cur
      rcases hx with rfl | hx
      · exact hcur'
      · have := ih _ x hx
        linarith

lemma windowLoop_sorted (s : ℕ) (endToday interval : ℚ)
    (hint : 0 ≤ interval) :
    ∀ n cur, List.Sorted (· ≤ ·) (windowLoop s endToday interval n cur) := by
  intro n
  induction n with
  | zero => intro cur; simp [windowLoop]
  | succ k ih =>
      intro cur
      simp only [windowLoop, List.sorted_cons]
      refine ⟨?_, ih _⟩
      intro b hb
      set cur' := if endToday < cur then dayStart (cur + 1440) + s else cur with hc
      have := windowLoop_lower_bound s endToday interval hint k (cur' + interval) b hb
      linarith

/-- Every emitted timestamp lands inside some day's configured window. -/
lemma windowLoop_in_window (s e : ℕ) (hse : s < e) (interval : ℚ)
    (hint : 0 ≤ interval) (d0 : ℤ) :
    ∀ n (cur : ℚ), ((d0 : ℚ) * 1440 + s) ≤ cur →
      ∀ x ∈ windowLoop s ((d0 : ℚ) * 1440 + e) interval n cur, inSomeWindow s e x := by
  intro n
  induction n with
  | zero => intro cur _ x hx; simp [windowLoop] at hx
  | succ k ih =>
      intro cur hcur x hx
      simp only [windowLoop, List.mem_cons] at hx
      by_cases hwrap : ((d0 : ℚ) * 1440 + e) < cur
      · simp only [if_pos hwrap] at hx
        rcases hx with rfl | hx
        · refine ⟨⌊(cur + 1440) / 1440⌋, le_of_eq rfl, ?_⟩
          have : (s : ℚ) ≤ e := by exact_mod_cast hse.le
          unfold dayStart
          linarith
        · refine ih _ ?_ x hx
          have h1 := le_wrap s cur
          linarith
      · simp only [if_neg hwrap] at hx
        push_neg at hwrap
        rcases hx with rfl | hx
        · exact ⟨d0, hcur, hwrap⟩
        · refine ih _ ?_ x hx
          linarith

/-- C5. For every item count `N ≥ 1` and every valid bounded-window policy
(start/end parse as times of day with `end` after `start`), the computed
schedule has exactly `N` timestamps, is monotonically non-decreasing, and
every timestamp lies inside some calendar day's configured window. -/
theorem bulk_window_schedule_correct (s e nItems : ℕ) (now : ℚ)
    (hs : s ≤ 1439) (he : e ≤ 1439) (hse : s < e) (hN : 1 ≤ nItems) :
    ∃ ts, computeWindowSchedule s e nItems now = some ts ∧
      ts.length = nItems ∧ List.Sorted (· ≤ ·) ts ∧
      ∀ t ∈ ts, inSomeWindow s e t := by
  have hseQ : (s : ℚ) < e := by exact_mod_cast hse
  have htot : ¬ ((dayStart now + e) - (dayStart now + s) ≤ 0) := by
    push_neg
    linarith
  have hint : 0 ≤ windowInterval s e now nItems := by
    unfold windowInterval
    have hn : (0 : ℚ) ≤ nItems := by positivity
    apply div_nonneg <;> linarith
  refine ⟨windowLoop s (dayStart now + e) (windowInterval s e now nItems) nItems
      (if dayStart now + s < now then now else dayStart now + s), ?_, ?_, ?_, ?_⟩
  · unfold computeWindowSchedule
    simp only [if_neg htot]
  · exact windowLoop_length _ _ _ _ _
  · exact windowLoop_sorted _ _ _ hint _ _
  · have hds : dayStart now = (⌊now / 1440⌋ : ℚ) * 1440 := rfl
    intro t ht
    refine windowLoop_in_window s e hse _ hint ⌊now / 1440⌋ nItems
      (if dayStart now + s < now then now else dayStart now + s) ?_ t ?_
    · rw [← hds]
      split
      · linarith
      · linarith
    · rw [← hds]
      exact ht

/-- Witness for C5 at the concrete morning-window scenario. -/
theorem bulk_window_schedule_correct_witness :
    ∃ ts, computeWindowSchedule 360 540 3 420 = some ts ∧
      ts.length = 3 ∧ List.Sorted (· ≤ ·) ts ∧
      ∀ t ∈ ts, inSomeWindow 360 540 t :=
  bulk_window_schedule_correct 360 540 3 420 (by norm_num) (by norm_num)
    (by norm_num) (by norm_num)

/-- C6. Window 06:00-09:00 (minutes 360-540), `N = 3`, `now` = 07:00 local
(minute 420 of day 0): the computed timestamps are exactly 07:00, 08:00 and
09:00 of the same day, the cursor starts at `now` (since `now` is past the
window start), and the spacing interval is one hour. -/
theorem bulk_window_morning_scenario :
    computeWindowSchedule 360 540 3 420 = some [420, 480, 540] ∧
    windowInterval 360 540 420 3 = 60 ∧
    dayStart 420 + 360 < 420 := by
  have h0 : dayStart (420 : ℚ) = 0 := by
    unfold dayStart
    norm_num
  have hiv : windowInterval 360 540 420 3 = 60 := by
    unfold windowInterval
    rw [h0]
    norm_num
  refine ⟨?_, hiv, by rw [h0]; norm_num⟩
  unfold computeWindowSchedule
  rw [hiv, h0]
  norm_num
  simp [windowLoop]
  norm_num

/- ===================================================================
   ConcurrencyGate: the global upload semaphore.
   `upload_semaphore = asyncio.Semaphore(MAX_CONCURRENT_UPLOADS)` is
   created at startup (line 3676); the pipeline acquires it with
   `async with upload_semaphore` (line 3417); the operator hot-reload
   handler (lines 1928-1939) stores the new limit and REBINDS the global
   to a brand-new `asyncio.Semaphore(new_limit)` (line 1935), leaving any
   permits of the previous semaphore object outstanding.
   =================================================================== -/

inductive GateEv
  | acquire
  | releaseCur
  | releaseOld
  | reload (n : ℕ)
deriving DecidableEq

/-- `true` exactly for hot-reload events. -/
def GateEv.isReload : GateEv → Bool
  | .reload _ => true
  | _ => false

/-- `limit` is the configured `max_concurrent_uploads`; `avail` and
`curHolders` are the free and held permits of the *current* semaphore
object; `oldHolders` counts runs still holding a permit of a semaphore
object that a hot-reload has replaced. -/
structure GateState where
  limit : ℕ
  avail : ℕ
  curHolders : ℕ
  oldHolders : ℕ
deriving DecidableEq

def gateInit (n : ℕ) : GateState := ⟨n, n, 0, 0⟩

/-- One event against the gate.  A blocked `acquire` holds nothing (the
acquirer suspends), so it is a no-op on the permit accounting; `reload n`
follows lines 1932-1935: non-positive limits are rejected, otherwise the
global is rebound to a fresh semaphore of capacity `n` while current
holders keep their (now old) permits. -/
def gateStep (st : GateState) : GateEv → GateState
  | .acquire =>
      if st.avail = 0 then st
      else { st with avail := st.avail - 1, curHolders := st.curHolders + 1 }
  | .releaseCur =>
      if st.curHolders = 0 then st
      else { st with avail := st.avail + 1, curHolders := st.curHolders - 1 }
  | .releaseOld =>
      if st.oldHolders = 0 then st
      else { st with oldHolders := st.oldHolders - 1 }
  | .reload n =>
      if n = 0 then st
      else { limit := n, avail := n, curHolders := 0,
             oldHolders := st.oldHolders + st.curHolders }

def gateRun (evs : List GateEv) (st : GateState) : GateState :=
  evs.foldl gateStep st

/-- Number of pipeline runs holding a global permit (of any semaphore). -/
def totalHolders (st : GateState) : ℕ := st.curHolders + st.oldHolders

lemma gateStep_sum_inv {st : GateState}
    (h : st.curHolders + st.avail = st.limit) (e : GateEv) :
    (gateStep st e).curHolders + (gateStep st e).avail = (gateStep st e).limit := by
  cases e <;> simp only [gateStep] <;> split <;> simp_all <;> omega

lemma gateRun_sum_inv (evs : List GateEv) :
    ∀ st : GateState, st.curHolders + st.avail = st.limit →
      (gateRun evs st).curHolders + (gateRun evs st).avail = (gateRun evs st).limit := by
  induction evs with
  | nil => intro st h; exact h
  | cons e evs ih =>
      intro st h
      exact ih _ (gateStep_sum_inv h e)

lemma gateStep_no_reload {st : GateState} {e : GateEv} (h : e.isReload = false) :
    (gateStep st e).limit = st.limit ∧
      (gateStep st e).oldHolders ≤ st.oldHolders := by
  cases e <;> simp_all [GateEv.isReload, gateStep] <;> split <;> simp <;> omega

lemma gateRun_no_reload (evs : List GateEv) :
    ∀ st : GateState, (∀ e ∈ evs, e.isReload = false) →
      (gateRun evs st).limit = st.limit ∧
        (gateRun evs st).oldHolders ≤ st.oldHolders := by
  induction evs with
  | nil => intro st _; exact ⟨rfl, le_refl _⟩
  | cons e evs ih =>
      intro st h
      have he : (gateStep st e).limit = st.limit ∧
          (gateStep st e).oldHolders ≤ st.oldHolders :=
        gateStep_no_reload (h e (by simp))
      have := ih (gateStep st e) (fun x hx => h x (by simp [hx]))
      exact ⟨this.1.trans he.1, this.2.trans he.2⟩

/-- C2 counterexample.  Starting from `max_concurrent_uploads = 1`: one run
acquires the permit; the operator hot-reloads the limit to 1; a second run
acquires the fresh semaphore.  Two runs now hold global permits while the
configured limit is 1. -/
theorem gate_hot_reload_counterexample :
    totalHolders (gateRun [GateEv.acquire, GateEv.reload 1, GateEv.acquire]
        (gateInit 1)) = 2 ∧
    (gateRun [GateEv.acquire, GateEv.reload 1, GateEv.acquire]
        (gateInit 1)).limit = 1 := by
  decide

/-- C2 amended.  The current semaphore never grants more than the current
`max_concurrent_uploads` simultaneous permits, and in runs with no
hot-reload the total number of permit holders is bounded by the configured
limit; but across hot-reloads holders of a replaced semaphore do not count
against the new pool, so the total can exceed the limit. -/
theorem gate_bound_amended (n : ℕ) (evs : List GateEv) :
    (gateRun evs (gateInit n)).curHolders ≤ (gateRun evs (gateInit n)).limit ∧
    ((∀ e ∈ evs, e.isReload = false) →
      totalHolders (gateRun evs (gateInit n)) ≤ n) := by
  have hsum := gateRun_sum_inv evs (gateInit n) (by simp [gateInit])
  constructor
  · omega
  · intro h
    obtain ⟨hl, ho⟩ := gateRun_no_reload evs (gateInit n) h
    have hl' : (gateRun evs (gateInit n)).limit = n := by
      simpa [gateInit] using hl
    have ho' : (gateRun evs (gateInit n)).oldHolders = 0 := by
      have h0 : (gateInit n).oldHolders = 0 := rfl
      omega
    unfold totalHolders
    omega

/-- Witness for C2's amended theorem: two acquisitions at limit 1 with no
reload leave at most one holder. -/
theorem gate_bound_amended_witness :
    (gateRun [GateEv.acquire, GateEv.acquire] (gateInit 1)).curHolders ≤
      (gateRun [GateEv.acquire, GateEv.acquire] (gateInit 1)).limit ∧
    totalHolders (gateRun [GateEv.acquire, GateEv.acquire] (gateInit 1)) ≤ 1 :=
  ⟨(gate_bound_amended 1 [GateEv.acquire, GateEv.acquire]).1,
   (gate_bound_amended 1 [GateEv.acquire, GateEv.acquire]).2 (by decide)⟩

/- ===================================================================
   SchedulerDaemon: the claim step.
   `schedule_bulk_upload_task` (lines 3333-3371) each cycle fetches the
   entries with `status = "pending"` and `run_at <= now`, and for each
   fetched entry runs `db.schedules.update_one({"_id": id},
   {"$set": {"status": "processing"}})` (line 3358) — the filter names
   only the id, not the status — and then dispatches the pipeline task
   (lines 3360-3364) unconditionally for every fetched entry.
   =================================================================== -/

inductive SchedStatus
  | pending
  | processing
  | completed
  | failed
deriving DecidableEq

def SchedStatus.isTerminal : SchedStatus → Bool
  | .completed => true
  | .failed => true
  | _ => false

/-- Two overlapping poll cycles racing on one due schedule entry.
`found _` records whether the cycle's `find` snapshot saw the entry
pending; `dispatched _` counts how many pipeline tasks that cycle spawned
for the entry. -/
structure RaceState where
  status : SchedStatus
  found0 : Bool
  found1 : Bool
  dispatched0 : ℕ
  dispatched1 : ℕ
deriving DecidableEq

def raceInit (st : SchedStatus) : RaceState := ⟨st, false, false, 0, 0⟩

inductive PollEv
  | find0
  | find1
  | claimDispatch0
  | claimDispatch1
deriving DecidableEq

/-- `find` snapshots pending-ness (line 3338-3343); `claimDispatch` is the
per-entry body of the loop (lines 3345-3364): for an entry in the snapshot
it sets `status = processing` by id — regardless of the current status —
and spawns the pipeline task; an entry not in the snapshot is untouched. -/
def pollStep (st : RaceState) : PollEv → RaceState
  | .find0 => { st with found0 := decide (st.status = SchedStatus.pending) }
  | .find1 => { st with found1 := decide (st.status = SchedStatus.pending) }
  | .claimDispatch0 =>
      if st.found0 then
        { st with status := SchedStatus.processing,
                  dispatched0 := st.dispatched0 + 1 }
      else st
  | .claimDispatch1 =>
      if st.found1 then
        { st with status := SchedStatus.processing,
                  dispatched1 := st.dispatched1 + 1 }
      else st

def runPoll (evs : List PollEv) (st : RaceState) : RaceState :=
  evs.foldl pollStep st

/-- The interleaving in which both overlapping cycles fetch before either
updates, then each claims and dispatches. -/
def raceTrace : List PollEv :=
  [PollEv.find0, PollEv.find1, PollEv.claimDispatch0, PollEv.claimDispatch1]

def racedFinalFrom (st : SchedStatus) : RaceState := runPoll raceTrace (raceInit st)

/-- C1 counterexample.  On a pending entry, the two racing claim attempts do
NOT succeed exactly once: both dispatch the entry to the pipeline, because
the update at line 3358 is filtered by id only and dispatch is decided by
the earlier `find`. -/
theorem sched_claim_not_exactly_once :
    ¬ (((racedFinalFrom SchedStatus.pending).dispatched0 = 1 ∧
        (racedFinalFrom SchedStatus.pending).dispatched1 = 0) ∨
       ((racedFinalFrom SchedStatus.pending).dispatched0 = 0 ∧
        (racedFinalFrom SchedStatus.pending).dispatched1 = 1)) := by
  decide

/-- C1 amended.  The claim step is an unconditional update filtered only by
entry id, and dispatch follows the earlier `find` snapshot: two overlapping
claim attempts that both observed the entry pending BOTH succeed (each
dispatches once, and the entry ends in `processing`); attempts whose
snapshot saw a non-pending status dispatch nothing. -/
theorem sched_claim_amended (st : SchedStatus) :
    (st = SchedStatus.pending →
      racedFinalFrom st =
        ⟨SchedStatus.processing, true, true, 1, 1⟩) ∧
    (st ≠ SchedStatus.pending →
      (racedFinalFrom st).dispatched0 = 0 ∧
        (racedFinalFrom st).dispatched1 = 0) := by
  cases st <;> exact ⟨by intro h; first | rfl | simp_all,
    by intro h; first | decide | simp_all⟩

/-- Witness for C1's amended theorem at a pending entry. -/
theorem sched_claim_amended_witness :
    racedFinalFrom SchedStatus.pending =
      ⟨SchedStatus.processing, true, true, 1, 1⟩ :=
  (sched_claim_amended SchedStatus.pending).1 rfl

/- ===================================================================
   ScheduleEntry terminal status: the writes a scheduled pipeline run
   performs on its entry, from `process_and_upload`
   (lines 3399-3565, `is_scheduled = True`).
   =================================================================== -/

/-- How one `process_and_upload` run ends. -/
inductive RunOutcome
  | sendMsgFailed
  | published
  | cancelledRun
  | loginRequired
  | mediaUploadFailed
  | clientError
  | otherError
deriving DecidableEq

/-- The `ScheduleEntry.status` write performed by a scheduled run: `failed`
when the initial processing message cannot be sent (line 3412),
`completed` on the success path (line 3535); every exception handler
(lines 3542-3560) and the `finally` block (3561-3565) write no schedule
status, leaving the entry as it was. -/
def scheduledStatusAfter (o : RunOutcome) (st : SchedStatus) : SchedStatus :=
  match o with
  | .sendMsgFailed => SchedStatus.failed
  | .published => SchedStatus.completed
  | _ => st

def statusRank : SchedStatus → ℕ
  | .pending => 0
  | .processing => 1
  | .completed => 2
  | .failed => 2

/-- C4 counterexample.  A scheduled run that ends in a fault (here the
generic exception handler, line 3557) leaves the claimed entry stuck at
`processing`: the status is not set to `failed` and is not terminal. -/
theorem sched_terminal_counterexample :
    scheduledStatusAfter RunOutcome.otherError SchedStatus.processing =
      SchedStatus.processing ∧
    (scheduledStatusAfter RunOutcome.otherError
      SchedStatus.processing).isTerminal = false := by
  decide

/-- C4 amended.  A scheduled run sets the claimed entry to `completed` when
publishing succeeds and to `failed` only when the initial notification
message cannot be sent; on every other fault or cancellation the entry
remains `processing`; no write ever moves the status backward. -/
theorem sched_terminal_amended (o : RunOutcome) :
    (o = RunOutcome.published →
      scheduledStatusAfter o SchedStatus.processing = SchedStatus.completed) ∧
    (o = RunOutcome.sendMsgFailed →
      scheduledStatusAfter o SchedStatus.processing = SchedStatus.failed) ∧
    (o ≠ RunOutcome.published → o ≠ RunOutcome.sendMsgFailed →
      scheduledStatusAfter o SchedStatus.processing = SchedStatus.processing) ∧
    statusRank SchedStatus.processing ≤
      statusRank (scheduledStatusAfter o SchedStatus.processing) := by
  cases o <;> refine ⟨by intro h; first | rfl | simp_all,
    by intro h; first | rfl | simp_all,
    by intro h1 h2; first | rfl | simp_all, by decide⟩

/-- Witness for C4's amended theorem at the success outcome. -/
theorem sched_terminal_amended_witness :
    scheduledStatusAfter RunOutcome.published SchedStatus.processing =
      SchedStatus.completed :=
  (sched_terminal_amended RunOutcome.published).1 rfl

/- ===================================================================
   TaskRegistry: TaskTracker (lines 169-231).
   `_user_specific_tasks` is a dict of dicts keyed by user id and task
   name, so at most one handle is stored per key; `create_task` with a
   user id and task name first runs `cancel_user_task` (line 184) and
   then stores the fresh task under the key (line 191);
   `cancel_user_task` (lines 203-210) pops the key and calls `.cancel()`
   on the popped task when it is not yet done.  Tasks also reach a
   terminal state on their own (the done callback of line 187).
   =================================================================== -/

inductive TaskStatus
  | running
  | cancelledTask
  | finishedTask
deriving DecidableEq

structure TaskRec where
  owner : ℕ
  name : String
  status : TaskStatus
deriving DecidableEq

/-- `task_to_cancel.cancel()` guarded by `if not task_to_cancel.done()`. -/
def cancelTask (t : TaskRec) : TaskRec :=
  if t.status = TaskStatus.running then
    { t with status := TaskStatus.cancelledTask }
  else t

/-- A task completing on its own (reaching its done callback). -/
def finishRec (t : TaskRec) : TaskRec :=
  if t.status = TaskStatus.running then
    { t with status := TaskStatus.finishedTask }
  else t

lemma cancelTask_not_running (t : TaskRec) :
    (cancelTask t).status ≠ TaskStatus.running := by
  unfold cancelTask
  split
  · simp
  · assumption

lemma cancelTask_owner (t : TaskRec) : (cancelTask t).owner = t.owner := by
  unfold cancelTask
  split <;> rfl

lemma cancelTask_name (t : TaskRec) : (cancelTask t).name = t.name := by
  unfold cancelTask
  split <;> rfl

lemma finishRec_not_running (t : TaskRec) :
    (finishRec t).status ≠ TaskStatus.running := by
  unfold finishRec
  split
  · simp
  · assumption

lemma finishRec_owner (t : TaskRec) : (finishRec t).owner = t.owner := by
  unfold finishRec
  split <;> rfl

lemma finishRec_name (t : TaskRec) : (finishRec t).name = t.name := by
  unfold finishRec
  split <;> rfl

/-- Tracker state: all tasks ever created (by allocation id), the next
fresh id, and the `_user_specific_tasks` registry. -/
structure TrackerState where
  tasks : ℕ → Option TaskRec
  nextId : ℕ
  registry : ℕ → String → Option ℕ

def trackerInit : TrackerState := ⟨fun _ => none, 0, fun _ _ => none⟩

/-- `cancel_user_task` (lines 203-210). -/
def cancel_user_task (st : TrackerState) (o : ℕ) (n : String) : TrackerState :=
  match st.registry o n with
  | none => st
  | some tid =>
      { st with
        registry := fun o' n' =>
          if o' = o ∧ n' = n then none else st.registry o' n'
        tasks := fun i =>
          if i = tid then (st.tasks i).map cancelTask else st.tasks i }

/-- `create_task` with a user id and task name (lines 176-194): cancel the
previous task of the same key, allocate the new task, register it. -/
def create_task (st : TrackerState) (o : ℕ) (n : String) : TrackerState :=
  let st1 := cancel_user_task st o n
  { tasks := fun i =>
      if i = st1.nextId then some ⟨o, n, TaskStatus.running⟩ else st1.tasks i
    nextId := st1.nextId + 1
    registry := fun o' n' =>
      if o' = o ∧ n' = n then some st1.nextId else st1.registry o' n' }

/-- A tracked task reaching a terminal state on its own. -/
def finishTask (st : TrackerState) (tid : ℕ) : TrackerState :=
  { st with tasks := fun i =>
      if i = tid then (st.tasks i).map finishRec else st.tasks i }

inductive TrackerEv
  | spawn (o : ℕ) (n : String)
  | finish (tid : ℕ)
  | cancelKey (o : ℕ) (n : String)

def trackerStep (st : TrackerState) : TrackerEv → TrackerState
  | .spawn o n => create_task st o n
  | .finish tid => finishTask st tid
  | .cancelKey o n => cancel_user_task st o n

def trackerRun (evs : List TrackerEv) (st : TrackerState) : TrackerState :=
  evs.foldl trackerStep st

/-- Registry invariant: every running task is the one registered under its
key, every registered id points at a task of that key, and ids at or above
`nextId` are unallocated. -/
def TrackerInv (st : TrackerState) : Prop :=
  (∀ tid t, st.tasks tid = some t → t.status = TaskStatus.running →
      st.registry t.owner t.name = some tid) ∧
  (∀ o n tid, st.registry o n = some tid →
      ∃ t, st.tasks tid = some t ∧ t.owner = o ∧ t.name = n) ∧
  (∀ tid, st.nextId ≤ tid → st.tasks tid = none)

lemma trackerInit_inv : TrackerInv trackerInit :=
  ⟨fun _ _ ht => by simp [trackerInit] at ht,
   fun _ _ _ hr => by simp [trackerInit] at hr,
   fun _ _ => rfl⟩

lemma cancel_user_task_inv {st : TrackerState} (h : TrackerInv st)
    (o : ℕ) (n : String) : TrackerInv (cancel_user_task st o n) := by
  obtain ⟨h1, h2, h3⟩ := h
  unfold cancel_user_task
  cases hreg : st.registry o n with
  | none => exact ⟨h1, h2, h3⟩
  | some tid0 =>
      refine ⟨?_, ?_, ?_⟩
      · intro tid t ht hrun
        simp only at ht ⊢
        by_cases htid : tid = tid0
        · subst htid
          rw [if_pos rfl] at ht
          cases hcur : st.tasks tid with
          | none => rw [hcur] at ht; cases ht
          | some t0 =>
              rw [hcur, Option.map_some'] at ht
              cases ht
              exact absurd hrun (cancelTask_not_running t0)
        · rw [if_neg htid] at ht
          have hr := h1 tid t ht hrun
          split
          · rename_i hk
            obtain ⟨hko, hkn⟩ := hk
            rw [hko, hkn] at hr
            rw [hr] at hreg
            cases hreg
            exact absurd rfl htid
          · exact hr
      · intro o' n' tid hr
        simp only at hr ⊢
        split at hr
        · cases hr
        · obtain ⟨t, ht, hto, htn⟩ := h2 o' n' tid hr
          by_cases htid : tid = tid0
          · subst htid
            exact ⟨cancelTask t, by rw [if_pos rfl, ht, Option.map_some'],
              (cancelTask_owner t).trans hto, (cancelTask_name t).trans htn⟩
          · exact ⟨t, by rw [if_neg htid]; exact ht, hto, htn⟩
      · intro tid hge
        simp only
        split
        · rw [h3 tid hge]; rfl
        · exact h3 tid hge

lemma cancel_user_task_nextId (st : TrackerState) (o : ℕ) (n : String) :
    (cancel_user_task st o n).nextId = st.nextId := by
  unfold cancel_user_task
  cases st.registry o n <;> rfl

lemma create_task_inv {st : TrackerState} (h : TrackerInv st)
    (o : ℕ) (n : String) : TrackerInv (create_task st o n) := by
  have h1 := cancel_user_task_inv h o n
  obtain ⟨hc1, hc2, hc3⟩ := h1
  unfold create_task
  refine ⟨?_, ?_, ?_⟩
  · intro tid t ht hrun
    simp only at ht ⊢
    by_cases htid : tid = (cancel_user_task st o n).nextId
    · subst htid
      rw [if_pos rfl] at ht
      cases ht
      simp
    · rw [if_neg htid] at ht
      have hr := hc1 tid t ht hrun
      split
      · rename_i hk
        obtain ⟨hko, hkn⟩ := hk
        -- the inner cancel_user_task removed any registry entry for
        -- (o, n), so no still-running task can carry that key
        exfalso
        have hnone : (cancel_user_task st o n).registry o n ≠ some tid := by
          cases hreg : st.registry o n with
          | none => simp [cancel_user_task, hreg]
          | some tid0 => simp [cancel_user_task, hreg]
        rw [hko, hkn] at hr
        exact hnone hr
      · exact hr
  · intro o' n' tid hr
    simp only at hr ⊢
    split at hr
    · rename_i hk
      obtain ⟨hko, hkn⟩ := hk
      cases hr
      exact ⟨⟨o, n, TaskStatus.running⟩, by simp, hko.symm, hkn.symm⟩
    · have := hc2 o' n' tid hr
      obtain ⟨t, ht, hto, htn⟩ := this
      refine ⟨t, ?_, hto, htn⟩
      have : tid ≠ (cancel_user_task st o n).nextId := by
        intro heq
        rw [heq] at ht
        rw [hc3 _ (le_refl _)] at ht
        cases ht
      simp [if_neg this, ht]
  · intro tid hge
    simp only at hge ⊢
    have : tid ≠ (cancel_user_task st o n).nextId := by omega
    simp only [if_neg this]
    exact hc3 tid (by omega)

lemma finishTask_inv {st : TrackerState} (h : TrackerInv st)
    (tid0 : ℕ) : TrackerInv (finishTask st tid0) := by
  obtain ⟨h1, h2, h3⟩ := h
  unfold finishTask
  refine ⟨?_, ?_, ?_⟩
  · intro tid t ht hrun
    simp only at ht ⊢
    by_cases htid : tid = tid0
    · subst htid
      rw [if_pos rfl] at ht
      cases hcur : st.tasks tid with
      | none => rw [hcur] at ht; cases ht
      | some t0 =>
          rw [hcur, Option.map_some'] at ht
          cases ht
          exact absurd hrun (finishRec_not_running t0)
    · rw [if_neg htid] at ht
      exact h1 tid t ht hrun
  · intro o' n' tid hr
    simp only at hr ⊢
    obtain ⟨t, ht, hto, htn⟩ := h2 o' n' tid hr
    by_cases htid : tid = tid0
    · subst htid
      exact ⟨finishRec t, by rw [if_pos rfl, ht, Option.map_some'],
        (finishRec_owner t).trans hto, (finishRec_name t).trans htn⟩
    · exact ⟨t, by rw [if_neg htid]; exact ht, hto, htn⟩
  · intro tid hge
    simp only
    split
    · rw [h3 tid hge]; rfl
    · exact h3 tid hge

lemma trackerRun_inv (evs : List TrackerEv) :
    ∀ st : TrackerState, TrackerInv st → TrackerInv (trackerRun evs st) := by
  induction evs with
  | nil => intro st h; exact h
  | cons e evs ih =>
      intro st h
      refine ih _ ?_
      cases e with
      | spawn o n => exact create_task_inv h o n
      | finish tid => exact finishTask_inv h tid
      | cancelKey o n => exact cancel_user_task_inv h o n

/-- C7.  After any sequence of tracker operations: (a) for each
`(owner, logical_name)` at most one task is non-terminal (running); and
(b) a further spawn on a key whose registered task is still running
registers the fresh task under the key and leaves the prior task
observably cancelled — the latest spawn wins. -/
theorem taskTracker_latest_spawn_wins (evs : List TrackerEv) :
    (∀ tid1 tid2 t1 t2,
      (trackerRun evs trackerInit).tasks tid1 = some t1 →
      (trackerRun evs trackerInit).tasks tid2 = some t2 →
      t1.status = TaskStatus.running → t2.status = TaskStatus.running →
      t1.owner = t2.owner → t1.name = t2.name → tid1 = tid2) ∧
    (∀ o n tid t,
      (trackerRun evs trackerInit).registry o n = some tid →
      (trackerRun evs trackerInit).tasks tid = some t →
      t.status = TaskStatus.running →
      (create_task (trackerRun evs trackerInit) o n).registry o n =
          some (trackerRun evs trackerInit).nextId ∧
      (create_task (trackerRun evs trackerInit) o n).tasks tid =
          some { t with status := TaskStatus.cancelledTask }) := by
  obtain ⟨h1, h2, h3⟩ := trackerRun_inv evs trackerInit trackerInit_inv
  set st := trackerRun evs trackerInit with hst
  constructor
  · intro tid1 tid2 t1 t2 ht1 ht2 hr1 hr2 ho hn
    have e1 := h1 tid1 t1 ht1 hr1
    have e2 := h1 tid2 t2 ht2 hr2
    rw [ho, hn] at e1
    rw [e1] at e2
    cases e2
    rfl
  · intro o n tid t hreg ht hrun
    have hlt : tid < st.nextId := by
      by_contra hge
      push_neg at hge
      rw [h3 tid hge] at ht
      cases ht
    constructor
    · simp [create_task, cancel_user_task_nextId]
    · unfold create_task
      simp only
      have hne : tid ≠ (cancel_user_task st o n).nextId := by
        rw [cancel_user_task_nextId]
        omega
      rw [if_neg hne]
      unfold cancel_user_task
      rw [hreg]
      simp only [if_pos rfl, ht, Option.map_some']
      unfold cancelTask
      simp [hrun]

/-- Witness for C7: spawning `"timeout"` for user 1 twice leaves the first
task cancelled and the second registered. -/
theorem taskTracker_latest_spawn_wins_witness :
    (create_task (trackerRun [TrackerEv.spawn 1 "timeout"] trackerInit)
        1 "timeout").registry 1 "timeout" =
      some (trackerRun [TrackerEv.spawn 1 "timeout"] trackerInit).nextId ∧
    (create_task (trackerRun [TrackerEv.spawn 1 "timeout"] trackerInit)
        1 "timeout").tasks 0 =
      some ⟨1, "timeout", TaskStatus.cancelledTask⟩ :=
  (taskTracker_latest_spawn_wins [TrackerEv.spawn 1 "timeout"]).2 1 "timeout" 0
    ⟨1, "timeout", TaskStatus.running⟩ rfl rfl rfl

/- ===================================================================
   UploadStateMachine: the per-user state dict persisted via
   `_save_user_state` / cleared via `_clear_user_state`, and the handlers
   `handle_text_input` (caption branches, lines 1826-1859),
   `handle_media_upload` (lines 3198-3284) and `timeout_task`
   (lines 3567-3585).
   =================================================================== -/

/-- The `file_info` dict assembled by `handle_media_upload`
(lines 3237-3244) and enriched by later steps. -/
structure FileInfo where
  platform : String := "instagram"
  uploadType : String := ""
  originalMediaMsgId : ℕ := 0
  fileId : String := ""
  usertags : List String := []
  location : Option ℕ := none
  customCaption : Option String := none
  downloadedPath : Option String := none
deriving DecidableEq

/-- The per-user state dict.  `action` is the state tag the handlers
dispatch on; the remaining fields are the keys the modelled branches read
and write. -/
structure UserState where
  action : String
  platform : String := "instagram"
  uploadType : String := ""
  fileInfo : FileInfo := {}
  mediaFileIds : List String := []
  mediaMsgs : List ℕ := []
  mediaCount : ℕ := 0
  mediaLimit : ℕ := 0
  bulkCaptions : List String := []
deriving DecidableEq

/-- `cleanup_temp_files` (lines 929-935) over a filesystem modelled as the
list of existing paths: each truthy path that exists is removed. -/
def cleanup_temp_files (files : List String) (fs : List String) : List String :=
  files.foldl
    (fun acc p => if p ≠ "" ∧ p ∈ acc then acc.filter (fun x => x ≠ p) else acc)
    fs

/-- Result of one text event on a caption-collecting state: the state left
in the store and whether the handler rejected the input (replied with an
error and returned before any transition). -/
structure TextOutcome where
  state : UserState
  rejected : Bool
deriving DecidableEq

/-- The caption-collecting branches of `handle_text_input`: the single-post
caption step (lines 1826-1836) enforces the 280-character ceiling for
non-premium users before storing the caption; the bulk caption steps
(lines 1839-1859) store the captions and advance to
`waiting_for_schedule_options` with no length check (the individual-caption
step only checks that the count matches). -/
def handleCaptionText (st : UserState) (isPremium : Bool) (text : String) :
    TextOutcome :=
  if st.action = "waiting_for_caption" then
    if ¬ isPremium ∧ 280 < text.length then ⟨st, true⟩
    else ⟨{ st with fileInfo := { st.fileInfo with customCaption := some text } },
          false⟩
  else if st.action = "waiting_for_bulk_single_caption" then
    ⟨{ st with bulkCaptions := List.replicate st.mediaFileIds.length text,
               action := "waiting_for_schedule_options" }, false⟩
  else if st.action = "waiting_for_bulk_individual_captions" then
    let captions := (text.splitOn "----").map String.trim
    if captions.length ≠ st.mediaFileIds.length then ⟨st, true⟩
    else ⟨{ st with bulkCaptions := captions,
                    action := "waiting_for_schedule_options" }, false⟩
  else ⟨st, false⟩

/-- A 281-character caption. -/
def longCaption : String := String.mk (List.replicate 281 'a')

/-- A user mid bulk-upload flow, in the bulk single-caption step. -/
def bulkCaptionState : UserState :=
  { action := "waiting_for_bulk_single_caption", mediaFileIds := ["fid1"] }

set_option maxRecDepth 4000 in
/-- C8 counterexample.  Not every caption-collecting step enforces the
280-character ceiling: in the bulk single-caption step a non-premium user's
281-character caption is accepted and the state machine transitions to
`waiting_for_schedule_options`. -/
theorem caption_limit_counterexample :
    280 < longCaption.length ∧
    (handleCaptionText bulkCaptionState false longCaption).rejected = false ∧
    (handleCaptionText bulkCaptionState false longCaption).state.action =
      "waiting_for_schedule_options" ∧
    (handleCaptionText bulkCaptionState false longCaption).state ≠
      bulkCaptionState := by
  refine ⟨by decide, rfl, rfl, by decide⟩

/-- C8 amended.  In the single-post caption step (`waiting_for_caption`) a
caption longer than 280 characters from a non-premium user is rejected
before any transition: the stored state (and with it the state tag and job
data) is unchanged.  The bulk caption steps apply no length ceiling. -/
theorem caption_limit_single_step (st : UserState) (text : String)
    (hact : st.action = "waiting_for_caption")
    (hlen : 280 < text.length) :
    handleCaptionText st false text = ⟨st, true⟩ := by
  unfold handleCaptionText
  rw [hact]
  simp [hlen]

set_option maxRecDepth 4000 in
/-- Witness for C8's amended theorem: a 281-character caption in the
single-post caption step is rejected with the state unchanged. -/
theorem caption_limit_single_step_witness :
    handleCaptionText { action := "waiting_for_caption" } false longCaption =
      ⟨{ action := "waiting_for_caption" }, true⟩ :=
  caption_limit_single_step { action := "waiting_for_caption" } longCaption rfl
    (by decide)

/-- The inactivity wait of `timeout_task`: `await asyncio.sleep(600)`
(line 3568). -/
def timeoutSeconds : ℕ := 600

/-- The logical name under which `_deferred_download_and_show_options`
registers the inactivity timer with the tracker (line 3317):
`task_tracker.create_task(..., user_id=user_id, task_name="timeout")`. -/
def timeoutTaskName : String := "timeout"

/-- What `timeout_task` leaves behind (lines 3567-3585). -/
structure TimeoutResult where
  finalState : Option UserState
  fs : List String
  notifyCount : ℕ
deriving DecidableEq

/-- The body of `timeout_task` after its sleep, as a function of the stored
user state and the filesystem: when a state is stored it deletes the
recorded `downloaded_path` (if any), clears the state, and sends the
timeout notification once; with no stored state nothing happens. -/
def timeout_task_run (st : Option UserState) (fs : List String) :
    TimeoutResult :=
  match st with
  | none => ⟨none, fs, 0⟩
  | some s =>
      let fs1 := match s.fileInfo.downloadedPath with
        | some p => cleanup_temp_files [p] fs
        | none => fs
      ⟨none, fs1, 1⟩

/-- C9.  When the inactivity timer fires for a user sitting in
`waiting_for_upload_options` with a fetched file on disk, the state is
cleared back to idle, the fetched-but-unpublished file is removed from
disk, the user is notified exactly once, and the timer is the tracked task
named `"timeout"` with a 600-second wait. -/
theorem timeout_resets_state (s : UserState) (p : String) (fs : List String)
    (hact : s.action = "waiting_for_upload_options")
    (hdl : s.fileInfo.downloadedPath = some p)
    (hne : p ≠ "") (hp : p ∈ fs) :
    (timeout_task_run (some s) fs).finalState = none ∧
    (timeout_task_run (some s) fs).fs = fs.filter (fun x => x ≠ p) ∧
    (timeout_task_run (some s) fs).notifyCount = 1 ∧
    timeoutTaskName = "timeout" ∧ timeoutSeconds = 600 := by
  refine ⟨rfl, ?_, rfl, rfl, rfl⟩
  simp only [timeout_task_run, hdl]
  simp only [cleanup_temp_files, List.foldl_cons, List.foldl_nil]
  rw [if_pos ⟨hne, hp⟩]

/-- Witness for C9 at a concrete user state and filesystem. -/
theorem timeout_resets_state_witness :
    (timeout_task_run
        (some { action := "waiting_for_upload_options",
                fileInfo := { downloadedPath := some "tmp1" } })
        ["tmp1", "other"]).finalState = none ∧
    (timeout_task_run
        (some { action := "waiting_for_upload_options",
                fileInfo := { downloadedPath := some "tmp1" } })
        ["tmp1", "other"]).fs =
      (["tmp1", "other"].filter (fun x => x ≠ "tmp1")) ∧
    (timeout_task_run
        (some { action := "waiting_for_upload_options",
                fileInfo := { downloadedPath := some "tmp1" } })
        ["tmp1", "other"]).notifyCount = 1 ∧
    timeoutTaskName = "timeout" ∧ timeoutSeconds = 600 :=
  timeout_resets_state
    { action := "waiting_for_upload_options",
      fileInfo := { downloadedPath := some "tmp1" } }
    "tmp1" ["tmp1", "other"] rfl rfl (by decide) (by decide)

/-- The media kinds `handle_media_upload` accepts as collecting states
(lines 3221-3224). -/
def valid_media_actions : List String :=
  ["waiting_for_instagram_reel", "waiting_for_instagram_post",
   "waiting_for_instagram_story", "waiting_for_album_media",
   "waiting_for_bulk_media"]

/-- The inbound media of a message: `msg.video or msg.photo or
msg.document` with its size and ids. -/
structure MediaMsg where
  isVideo : Bool := false
  isPhoto : Bool := false
  fileSize : ℕ := 0
  fileId : String := ""
  msgId : ℕ := 0
deriving DecidableEq

inductive MediaReply
  | qrSaved
  | watermarkSaved
  | useUploadButtonsFirst
  | unsupportedMedia
  | fileTooLarge
  | bulkLimitReached
  | bulkVideosOnly
  | receivedBulkVideo
  | albumLimitReached
  | receivedAlbumFile
  | storyFlow
  | mediaReadyForCaption
deriving DecidableEq

structure MediaResult where
  state : Option UserState
  reply : MediaReply
deriving DecidableEq

/-- `state_data.get("action")`: an empty state dict has no action. -/
def actionOf : Option UserState → String
  | some s => s.action
  | none => ""

/-- The per-kind tail of `handle_media_upload` once the size check passed
(lines 3236-3284): bulk and album accumulate ids under their caps, story
goes straight to finalizing, anything else stores the file info and asks
for a caption. -/
def mediaCollectStep (s : UserState) (m : MediaMsg) : MediaResult :=
  let fi : FileInfo := { platform := s.platform, uploadType := s.uploadType,
                         originalMediaMsgId := m.msgId, fileId := m.fileId }
  if s.action = "waiting_for_bulk_media" then
    if s.mediaLimit ≤ s.mediaFileIds.length then
      ⟨some s, MediaReply.bulkLimitReached⟩
    else if m.isVideo = false then ⟨some s, MediaReply.bulkVideosOnly⟩
    else ⟨some { s with mediaFileIds := s.mediaFileIds ++ [m.fileId],
                        mediaMsgs := s.mediaMsgs ++ [m.msgId],
                        mediaCount := s.mediaCount + 1 },
          MediaReply.receivedBulkVideo⟩
  else if s.action = "waiting_for_album_media" then
    if 10 ≤ s.mediaFileIds.length then ⟨some s, MediaReply.albumLimitReached⟩
    else ⟨some { s with mediaFileIds := s.mediaFileIds ++ [m.fileId],
                        mediaMsgs := s.mediaMsgs ++ [m.msgId] },
          MediaReply.receivedAlbumFile⟩
  else if s.uploadType = "story" then
    ⟨some { action := "finalizing_upload", fileInfo := fi }, MediaReply.storyFlow⟩
  else
    ⟨some { action := "waiting_for_caption", fileInfo := fi },
     MediaReply.mediaReadyForCaption⟩

/-- `handle_media_upload` (lines 3198-3284): the admin shortcut branches,
the collecting-state guard, the unsupported-media guard, and the file-size
ceiling — `media.file_size > MAX_FILE_SIZE_BYTES and user_type != 'admin'`
clears the WHOLE stored state (line 3233) before replying. -/
def handle_media_upload_run (stOpt : Option UserState) (isAdminUser : Bool)
    (userType : String) (maxFileSize : ℕ) (media : Option MediaMsg) :
    MediaResult :=
  let action := actionOf stOpt
  let isPhoto := match media with | some m => m.isPhoto | none => false
  if isAdminUser = true ∧ action = "waiting_for_google_play_qr" ∧
      isPhoto = true then
    ⟨none, MediaReply.qrSaved⟩
  else if isAdminUser = true ∧ action = "waiting_for_watermark_image" ∧
      isPhoto = true then
    ⟨none, MediaReply.watermarkSaved⟩
  else if action ∈ valid_media_actions then
    match stOpt, media with
    | _, none => ⟨stOpt, MediaReply.unsupportedMedia⟩
    | none, some _ => ⟨stOpt, MediaReply.useUploadButtonsFirst⟩
    | some s, some m =>
        if maxFileSize < m.fileSize ∧ userType ≠ "admin" then
          ⟨none, MediaReply.fileTooLarge⟩
        else mediaCollectStep s m
  else ⟨stOpt, MediaReply.useUploadButtonsFirst⟩

/-- C10.  For a non-admin user in any media-collecting state, an inbound
file larger than the configured ceiling clears the user's entire stored
state — the whole in-progress flow, including any already-collected album
or bulk items, is aborted. -/
theorem oversized_media_clears_state (s : UserState) (m : MediaMsg)
    (isAdminUser : Bool) (userType : String) (maxFileSize : ℕ)
    (hact : s.action ∈ valid_media_actions)
    (htype : userType ≠ "admin")
    (hsize : maxFileSize < m.fileSize) :
    handle_media_upload_run (some s) isAdminUser userType maxFileSize
        (some m) = ⟨none, MediaReply.fileTooLarge⟩ := by
  have h1 : s.action ≠ "waiting_for_google_play_qr" := by
    intro he
    rw [he] at hact
    exact absurd hact (by decide)
  have h2 : s.action ≠ "waiting_for_watermark_image" := by
    intro he
    rw [he] at hact
    exact absurd hact (by decide)
  unfold handle_media_upload_run
  simp only [actionOf]
  rw [if_neg (fun hc => h1 hc.2.1), if_neg (fun hc => h2 hc.2.1), if_pos hact,
    if_pos ⟨hsize, htype⟩]

/-- Witness for C10: a 6-byte file over a 5-byte ceiling sent by a free
user mid-album wipes the stored album state. -/
theorem oversized_media_clears_state_witness :
    handle_media_upload_run
        (some { action := "waiting_for_album_media",
                mediaFileIds := ["a", "b"] })
        false "free" 5 (some { fileSize := 6 }) =
      ⟨none, MediaReply.fileTooLarge⟩ :=
  oversized_media_clears_state
    { action := "waiting_for_album_media", mediaFileIds := ["a", "b"] }
    { fileSize := 6 } false "free" 5 (by decide) (by decide) (by decide)

/- ===================================================================
   UploadPipeline: file creation, cleanup and permit release.
   Embedded from `process_and_upload` (lines 3417-3565): the whole body
   runs under `async with upload_semaphore` with `files_to_clean = []`
   (line 3419); every downloaded path is appended to `files_to_clean`
   immediately (line 3479), the converted path right after
   `fix_for_instagram` returns (lines 3489-3491), and the watermarked
   path when `apply_watermark` returns a new one (lines 3495-3498); the
   `finally` block (3561-3565) runs `cleanup_temp_files(files_to_clean)`
   on success, fault and cancellation alike, and leaving the
   `async with` releases the permit.
   =================================================================== -/

/-- How an awaited collaborator call ends: a value, a raised fault, or
cancellation at the suspension point. -/
inductive StepRes (α : Type)
  | ok (a : α)
  | fault
  | cancelledAt

/-- How the pipeline body exits. -/
inductive PipeExit
  | success
  | faulted
  | cancelledExit
deriving DecidableEq

/-- The collaborator behaviour one pipeline run observes: the path
`app.download_media` returns per file id (creating that file), whether a
path is a video needing conversion (lines 3486-3487), the path
`fix_for_instagram` produces (creating it on success), whether
watermarking is enabled (line 3493), the path `apply_watermark` returns
(it returns its input unchanged when disabled or on its caught internal
failure, lines 1025-1038), and the outcomes of the publish call and the
persistence write. -/
structure PipeEnv where
  download : String → StepRes String
  isVideoNeedingConv : String → Bool
  convert : String → StepRes String
  watermarkEnabled : Bool
  watermark : String → String
  publish : StepRes Unit
  persist : StepRes Unit

/-- The filesystem (paths existing on disk) and the run's
`files_to_clean` list. -/
structure BodyAcc where
  fs : List String
  clean : List String

/-- The download loop (lines 3476-3480): each successful download creates
its path on disk and appends it to `files_to_clean` and to
`paths_to_upload`. -/
def downloadLoop (env : PipeEnv) :
    List String → BodyAcc → List String →
      BodyAcc × List String × Option PipeExit
  | [], acc, paths => (acc, paths, none)
  | fid :: rest, acc, paths =>
      match env.download fid with
      | .ok p =>
          downloadLoop env rest ⟨p :: acc.fs, acc.clean ++ [p]⟩ (paths ++ [p])
      | .fault => (acc, paths, some PipeExit.faulted)
      | .cancelledAt => (acc, paths, some PipeExit.cancelledExit)

/-- One iteration of the per-path loop (lines 3483-3500): optional
conversion, then optional watermarking. -/
def transformOne (env : PipeEnv) (acc : BodyAcc) (p : String) :
    BodyAcc × Option PipeExit :=
  let conv : StepRes (BodyAcc × String) :=
    if env.isVideoNeedingConv p then
      match env.convert p with
      | .ok q => .ok (⟨q :: acc.fs, acc.clean ++ [q]⟩, q)
      | .fault => .fault
      | .cancelledAt => .cancelledAt
    else .ok (acc, p)
  match conv with
  | .fault => (acc, some PipeExit.faulted)
  | .cancelledAt => (acc, some PipeExit.cancelledExit)
  | .ok (acc1, q) =>
      if env.watermarkEnabled then
        let w := env.watermark q
        if w = q then (acc1, none)
        else (⟨w :: acc1.fs, acc1.clean ++ [w]⟩, none)
      else (acc1, none)

def processLoop (env : PipeEnv) :
    List String → BodyAcc → BodyAcc × Option PipeExit
  | [], acc => (acc, none)
  | p :: rest, acc =>
      match transformOne env acc p with
      | (acc1, none) => processLoop env rest acc1
      | (acc1, some ex) => (acc1, some ex)

/-- The try-block of `process_and_upload` after permit acquisition:
downloads, per-path transforms, publish, persist; the first fault or
cancellation aborts the rest of the body. -/
def pipelineBody (env : PipeEnv) (fids fs0 : List String) :
    BodyAcc × PipeExit :=
  match downloadLoop env fids ⟨fs0, []⟩ [] with
  | (acc, _, some ex) => (acc, ex)
  | (acc, paths, none) =>
      match processLoop env paths acc with
      | (acc1, some ex) => (acc1, ex)
      | (acc1, none) =>
          match env.publish with
          | .fault => (acc1, PipeExit.faulted)
          | .cancelledAt => (acc1, PipeExit.cancelledExit)
          | .ok _ =>
              match env.persist with
              | .fault => (acc1, PipeExit.faulted)
              | .cancelledAt => (acc1, PipeExit.cancelledExit)
              | .ok _ => (acc1, PipeExit.success)

structure PipeRunResult where
  fs : List String
  cleaned : List String
  exit : PipeExit
  released : Bool

/-- One whole `process_and_upload` run over its file ids: body under the
permit, then — on every exit path — `cleanup_temp_files(files_to_clean)`
and the permit release (the `finally` block and the end of the
`async with`). -/
def process_and_upload_files (env : PipeEnv) (fids fs0 : List String) :
    PipeRunResult :=
  let b := pipelineBody env fids fs0
  ⟨cleanup_temp_files b.1.clean b.1.fs, b.1.clean, b.2, true⟩

/-- The filesystem holds exactly the run's cleanup list (newest first) on
top of the pre-run files. -/
def accInv (base : List String) (acc : BodyAcc) : Prop :=
  acc.fs = acc.clean.reverse ++ base

lemma accInv_push {base : List String} {acc : BodyAcc}
    (h : accInv base acc) (p : String) :
    accInv base ⟨p :: acc.fs, acc.clean ++ [p]⟩ := by
  unfold accInv at h ⊢
  simp [h]

lemma downloadLoop_inv (env : PipeEnv) (base : List String) :
    ∀ (fids : List String) (acc : BodyAcc) (paths : List String),
      accInv base acc →
      accInv base (downloadLoop env fids acc paths).1 := by
  intro fids
  induction fids with
  | nil => intro acc paths h; exact h
  | cons fid rest ih =>
      intro acc paths h
      unfold downloadLoop
      cases env.download fid with
      | ok p => exact ih _ _ (accInv_push h p)
      | fault => exact h
      | cancelledAt => exact h

lemma transformOne_inv (env : PipeEnv) (base : List String)
    (acc : BodyAcc) (p : String) (h : accInv base acc) :
    accInv base (transformOne env acc p).1 := by
  unfold transformOne
  by_cases hconv : env.isVideoNeedingConv p
  · rw [if_pos hconv]
    cases env.convert p with
    | ok q =>
        dsimp only
        by_cases hwm : env.watermarkEnabled
        · rw [if_pos hwm]
          by_cases heq : env.watermark q = q
          · rw [if_pos heq]
            exact accInv_push h q
          · rw [if_neg heq]
            exact accInv_push (accInv_push h q) _
        · rw [if_neg hwm]
          exact accInv_push h q
    | fault => exact h
    | cancelledAt => exact h
  · rw [if_neg hconv]
    dsimp only
    by_cases hwm : env.watermarkEnabled
    · rw [if_pos hwm]
      by_cases heq : env.watermark p = p
      · rw [if_pos heq]
        exact h
      · rw [if_neg heq]
        exact accInv_push h _
    · rw [if_neg hwm]
      exact h

lemma processLoop_inv (env : PipeEnv) (base : List String) :
    ∀ (paths : List String) (acc : BodyAcc), accInv base acc →
      accInv base (processLoop env paths acc).1 := by
  intro paths
  induction paths with
  | nil => intro acc h; exact h
  | cons p rest ih =>
      intro acc h
      unfold processLoop
      have h1 := transformOne_inv env base acc p h
      cases htr : transformOne env acc p with
      | mk acc1 ex =>
          rw [htr] at h1
          cases ex with
          | none => exact ih acc1 h1
          | some e => exact h1

lemma pipelineBody_inv (env : PipeEnv) (fids fs0 : List String) :
    accInv fs0 (pipelineBody env fids fs0).1 := by
  unfold pipelineBody
  have hd := downloadLoop_inv env fs0 fids ⟨fs0, []⟩ [] (by simp [accInv])
  rcases hdl : downloadLoop env fids ⟨fs0, []⟩ [] with ⟨acc, paths, ex⟩
  rw [hdl] at hd
  cases ex with
  | some e => exact hd
  | none =>
      dsimp only
      have hp := processLoop_inv env fs0 paths acc hd
      rcases hpl : processLoop env paths acc with ⟨acc1, ex1⟩
      rw [hpl] at hp
      cases ex1 with
      | some e => exact hp
      | none =>
          cases env.publish <;> cases env.persist <;> exact hp

lemma remove_step (p : String) (fs : List String) (hne : p ≠ "") :
    (if p ≠ "" ∧ p ∈ fs then fs.filter (fun x => x ≠ p) else fs) =
      fs.filter (fun x => x ≠ p) := by
  split
  · rfl
  · rename_i hcond
    have hp : p ∉ fs := fun hmem => hcond ⟨hne, hmem⟩
    symm
    apply List.filter_eq_self.mpr
    intro a ha
    exact decide_eq_true fun heq => hp (heq ▸ ha)

lemma cleanup_eq_removeAll : ∀ l fs : List String, (∀ p ∈ l, p ≠ "") →
    cleanup_temp_files l fs =
      List.foldl (fun acc p => acc.filter (fun x => x ≠ p)) fs l
  | [], _, _ => rfl
  | p :: l, fs, hne => by
      simp only [cleanup_temp_files, List.foldl_cons]
      rw [remove_step p fs (hne p (by simp))]
      have := cleanup_eq_removeAll l (fs.filter (fun x => x ≠ p))
        (fun q hq => hne q (by simp [hq]))
      simpa only [cleanup_temp_files] using this

lemma removeAll_eq_filter (l : List String) :
    ∀ fs : List String,
      List.foldl (fun acc p => acc.filter (fun x => x ≠ p)) fs l =
        fs.filter (fun x => x ∉ l) := by
  induction l with
  | nil => intro fs; simp
  | cons p l ih =>
      intro fs
      simp only [List.foldl_cons]
      rw [ih, List.filter_filter]
      apply List.filter_congr
      intro x hx
      by_cases h1 : x = p <;> by_cases h2 : x ∈ l <;>
        simp [List.mem_cons, h1, h2]

lemma cleanup_clears (l fs0 : List String)
    (h : ∀ p ∈ l, p ∉ fs0 ∧ p ≠ "") :
    cleanup_temp_files l (l.reverse ++ fs0) = fs0 := by
  rw [cleanup_eq_removeAll l _ (fun p hp => (h p hp).2), removeAll_eq_filter]
  rw [List.filter_append]
  have h1 : (l.reverse.filter (fun x => x ∉ l)) = [] := by
    rw [List.filter_eq_nil]
    intro a ha
    rw [List.mem_reverse] at ha
    simp [ha]
  have h2 : fs0.filter (fun x => x ∉ l) = fs0 := by
    apply List.filter_eq_self.mpr
    intro a ha
    exact decide_eq_true fun hal => (h a hal).1 ha
  rw [h1, h2, List.nil_append]

/-- C3.  On every exit path after permit acquisition — success, any fault,
or cancellation, at any step — the run's `finally` cleanup removes exactly
the temporary files the run created (the `files_to_clean` bookkeeping
matches every file-creation site), leaving the filesystem as it was before
the run, and the global permit is released. -/
theorem pipeline_cleanup_and_release (env : PipeEnv) (fids fs0 : List String)
    (hfresh : ∀ p ∈ (process_and_upload_files env fids fs0).cleaned,
      p ∉ fs0 ∧ p ≠ "") :
    (process_and_upload_files env fids fs0).fs = fs0 ∧
    (process_and_upload_files env fids fs0).released = true := by
  have hinv := pipelineBody_inv env fids fs0
  unfold accInv at hinv
  refine ⟨?_, rfl⟩
  have hcleaned : (process_and_upload_files env fids fs0).cleaned =
      (pipelineBody env fids fs0).1.clean := rfl
  rw [hcleaned] at hfresh
  show cleanup_temp_files (pipelineBody env fids fs0).1.clean
      (pipelineBody env fids fs0).1.fs = fs0
  rw [hinv]
  exact cleanup_clears _ _ hfresh

/-- A run that downloads one video, converts it and watermarks it. -/
def sampleEnv : PipeEnv :=
  { download := fun fid => StepRes.ok ("dl_" ++ fid)
    isVideoNeedingConv := fun _ => true
    convert := fun p => StepRes.ok (p ++ "_fixed")
    watermarkEnabled := true
    watermark := fun p => "wm_" ++ p
    publish := StepRes.ok ()
    persist := StepRes.ok () }

/-- Witness for C3: a concrete successful run creates three temporary
files and ends with none of them on disk and the permit released. -/
theorem pipeline_cleanup_and_release_witness :
    (process_and_upload_files sampleEnv ["v1"] []).fs = [] ∧
    (process_and_upload_files sampleEnv ["v1"] []).released = true :=
  pipeline_cleanup_and_release sampleEnv ["v1"] [] (by decide)
